import Mathlib

/-!
Verification of the WalletCoinfluence trading engine against its
natural-language specification.  The Python modules are shallowly
embedded: pure arithmetic is over ℚ, container state is explicit, and
fallible operations return Option.
-/

namespace Pnl

/-- Embedding of the fields of a Trade row that the FIFO engine in
src/analytics/pnl.py reads: side, qty_token, price_usd, usd_value and
the nullable fee_usd. -/
structure PyTrade where
  side : String
  qty_token : ℚ
  price_usd : ℚ
  usd_value : ℚ
  fee_usd : Option ℚ
deriving Repr, DecidableEq

/-- One entry of the FIFO buy queue: the tuple (qty, price, cost_basis)
kept by FIFOPnLCalculator._calculate_token_pnl. -/
structure Lot where
  qty : ℚ
  price : ℚ
  cost : ℚ
deriving Repr, DecidableEq

/-- The while loop of the sell branch: match the sell against the buy
queue oldest-first.  A fully consumed lot credits proceeds prorated by
lot.qty over the whole sell quantity minus the lot cost; a lot larger
than the remaining sell quantity is split pro-rata and stays at the
head of the queue. -/
def sellLoop (proceeds totalQty : ℚ) : List Lot → ℚ → ℚ → ℚ × List Lot
  | [], _, realized => (realized, [])
  | lot :: rest, sellQty, realized =>
    if 0 < sellQty then
      if lot.qty ≤ sellQty then
        sellLoop proceeds totalQty rest (sellQty - lot.qty)
          (realized + proceeds * (lot.qty / totalQty) - lot.cost)
      else
        (realized + proceeds * (sellQty / totalQty) - sellQty / lot.qty * lot.cost,
          ⟨lot.qty - sellQty, lot.price, lot.cost - sellQty / lot.qty * lot.cost⟩ :: rest)
    else (realized, lot :: rest)

/-- One iteration of the trade loop of _calculate_token_pnl: a buy
appends the lot (qty_token, price_usd, usd_value + fee_usd or 0); a
sell runs the FIFO matching loop with proceeds usd_value - fee_usd;
any other side is ignored. -/
def processTrade (st : ℚ × List Lot) (t : PyTrade) : ℚ × List Lot :=
  if t.side = "buy" then
    (st.1, st.2 ++ [⟨t.qty_token, t.price_usd, t.usd_value + t.fee_usd.getD 0⟩])
  else if t.side = "sell" then
    sellLoop (t.usd_value - t.fee_usd.getD 0) t.qty_token st.2 t.qty_token st.1
  else st

/-- Fold of the trade loop from an arbitrary intermediate state. -/
def calcTokenPnlFrom (st : ℚ × List Lot) (trades : List PyTrade) : ℚ × List Lot :=
  trades.foldl processTrade st

/-- Realized PnL and remaining FIFO queue for a chronologically ordered
trade list of one (wallet, token), as computed by _calculate_token_pnl. -/
def calcTokenPnl (trades : List PyTrade) : ℚ × List Lot :=
  calcTokenPnlFrom (0, []) trades

/-- Unrealized PnL of the remaining queue at a mark price: the sum over
open lots of qty * mark - cost_basis. -/
def unrealizedAt (mark : ℚ) (queue : List Lot) : ℚ :=
  (queue.map (fun l => l.qty * mark - l.cost)).sum

/-- Spec scenario: buy 100 at one dollar with fee one dollar, then sell
100 at two dollars with fee two dollars. -/
def exOneTrades : List PyTrade :=
  [⟨"buy", 100, 1, 100, some 1⟩, ⟨"sell", 100, 2, 200, some 2⟩]

/-- Spec scenario: buy 100 at one, buy 100 at two, sell 150 at three,
all without fees. -/
def exTwoTrades : List PyTrade :=
  [⟨"buy", 100, 1, 100, none⟩, ⟨"buy", 100, 2, 200, none⟩, ⟨"sell", 150, 3, 450, none⟩]

end Pnl

namespace Pnl

/-- C1: FIFO PnL for one (wallet, token).  Every buy appends a lot
with cost usd_value + fee_usd; on the spec scenarios the engine yields
realized +97 with empty queue for [buy 100 at 1 fee 1, sell 100 at 2
fee 2], and realized +250, unrealized +50 at mark 3 and a single open
lot of 50 tokens at cost basis 100 for [buy 100 at 1, buy 100 at 2,
sell 150 at 3]. -/
theorem fifo_pnl_c1 :
    (∀ (st : ℚ × List Lot) (t : PyTrade), t.side = "buy" →
      processTrade st t =
        (st.1, st.2 ++ [⟨t.qty_token, t.price_usd, t.usd_value + t.fee_usd.getD 0⟩])) ∧
    calcTokenPnl exOneTrades = (97, []) ∧
    (calcTokenPnl exTwoTrades).1 = 250 ∧
    unrealizedAt 3 (calcTokenPnl exTwoTrades).2 = 50 ∧
    (calcTokenPnl exTwoTrades).2 = [⟨50, 2, 100⟩] := by
  have hsb : ("sell" : String) ≠ "buy" := by decide
  refine ⟨?_, ?_, ?_, ?_, ?_⟩
  · intro st t h
    simp [processTrade, h]
  · norm_num [calcTokenPnl, calcTokenPnlFrom, exOneTrades, processTrade, sellLoop, hsb]
  · norm_num [calcTokenPnl, calcTokenPnlFrom, exTwoTrades, processTrade, sellLoop, hsb]
  · norm_num [calcTokenPnl, calcTokenPnlFrom, exTwoTrades, processTrade, sellLoop,
      unrealizedAt, hsb]
  · norm_num [calcTokenPnl, calcTokenPnlFrom, exTwoTrades, processTrade, sellLoop, hsb]

/-- Witness for C1: the buy-append clause evaluated on a concrete buy. -/
theorem fifo_pnl_c1_witness :
    processTrade ((0 : ℚ), ([] : List Lot)) ⟨"buy", 5, 2, 10, some 1⟩ =
      (0, [⟨5, 2, 11⟩]) := by
  have h := fifo_pnl_c1.1 ((0 : ℚ), ([] : List Lot)) ⟨"buy", 5, 2, 10, some 1⟩ rfl
  norm_num at h
  exact h

/-- When every lot has nonnegative quantity and the sell quantity
strictly exceeds the total queued quantity, the matching loop consumes
the whole queue: realized PnL is credited with the proceeds prorated
over the matched quantity minus the total cost basis of the queue, and
the queue ends empty. -/
theorem sellLoop_consumes_all (proceeds totalQty : ℚ) :
    ∀ (q : List Lot) (sellQty realized : ℚ), (∀ l ∈ q, 0 ≤ l.qty) →
      (q.map Lot.qty).sum < sellQty →
      sellLoop proceeds totalQty q sellQty realized =
        (realized + proceeds * ((q.map Lot.qty).sum / totalQty) - (q.map Lot.cost).sum, []) := by
  intro q
  induction q with
  | nil =>
    intro sellQty realized _ _
    simp [sellLoop]
  | cons lot rest ih =>
    intro sellQty realized hnn hex
    have hrest : ∀ l ∈ rest, 0 ≤ l.qty := fun l hl => hnn l (List.mem_cons_of_mem _ hl)
    have hrsum : 0 ≤ (rest.map Lot.qty).sum := by
      apply List.sum_nonneg
      intro x hx
      rcases List.mem_map.mp hx with ⟨l, hl, rfl⟩
      exact hrest l hl
    have hsum : (List.map Lot.qty (lot :: rest)).sum = lot.qty + (rest.map Lot.qty).sum := by
      simp
    have hlq : 0 ≤ lot.qty := hnn lot (List.mem_cons_self _ _)
    have hlot_le : lot.qty ≤ sellQty := by
      rw [hsum] at hex
      linarith
    have hpos : 0 < sellQty := by
      rw [hsum] at hex
      linarith
    have hex' : (rest.map Lot.qty).sum < sellQty - lot.qty := by
      rw [hsum] at hex
      linarith
    rw [sellLoop, if_pos hpos, if_pos hlot_le, ih (sellQty - lot.qty) _ hrest hex']
    simp only [List.map_cons, List.sum_cons, Prod.mk.injEq, and_true]
    ring

/-- C6: a sell whose quantity exceeds the total open-lot quantity
consumes all lots, credits only the proceeds prorated over the matched
quantity (the unmatched excess contributes nothing), leaves the queue
empty, and processing continues on the remaining trades from that
state. -/
theorem fifo_excess_sell_c6 (t : PyTrade) (rest : List PyTrade) (st : ℚ × List Lot)
    (hside : t.side = "sell") (hq : ∀ l ∈ st.2, 0 ≤ l.qty)
    (hex : (st.2.map Lot.qty).sum < t.qty_token) :
    calcTokenPnlFrom st (t :: rest) =
      calcTokenPnlFrom
        (st.1 + (t.usd_value - t.fee_usd.getD 0) * ((st.2.map Lot.qty).sum / t.qty_token)
            - (st.2.map Lot.cost).sum, []) rest := by
  have hsb : ("sell" : String) ≠ "buy" := by decide
  have hstep : processTrade st t =
      (st.1 + (t.usd_value - t.fee_usd.getD 0) * ((st.2.map Lot.qty).sum / t.qty_token)
          - (st.2.map Lot.cost).sum, []) := by
    rw [processTrade, hside, if_neg hsb, if_pos rfl]
    exact sellLoop_consumes_all _ _ st.2 t.qty_token st.1 hq hex
  rw [calcTokenPnlFrom, List.foldl_cons, hstep]
  rfl

/-- Witness for C6: a sell of 150 against a single open lot of 100
credits 450 times 100 over 150 minus 100, empties the queue, and the
following buy is still processed. -/
theorem fifo_excess_sell_c6_witness :
    calcTokenPnlFrom ((0 : ℚ), [(⟨100, 1, 100⟩ : Lot)])
        [⟨"sell", 150, 3, 450, none⟩, ⟨"buy", 10, 1, 10, none⟩] =
      calcTokenPnlFrom
        (0 + ((450 : ℚ) - (none : Option ℚ).getD 0) *
            (([(⟨100, 1, 100⟩ : Lot)].map Lot.qty).sum / 150)
          - ([(⟨100, 1, 100⟩ : Lot)].map Lot.cost).sum, [])
        [⟨"buy", 10, 1, 10, none⟩] := by
  exact fifo_excess_sell_c6 ⟨"sell", 150, 3, 450, none⟩ [⟨"buy", 10, 1, 10, none⟩]
    ((0 : ℚ), [(⟨100, 1, 100⟩ : Lot)]) rfl (by norm_num) (by norm_num)

end Pnl

namespace Confluence

/-- One member of the per-key Redis sorted set used by
src/alerts/confluence.py: the serialized JSON value holds the wallet,
the timestamp, the side and the extra metadata, so two members are
equal exactly when all of those agree.  Timestamps are in minutes. -/
structure CEvent where
  wallet : String
  ts : ℚ
  side : String
  meta : List (String × String)
deriving Repr, DecidableEq

/-- Redis ZADD on one key, modelled on an insertion-ordered list of
(member, score) pairs: an existing member gets its score updated, a
new member is appended. -/
def zadd (store : List (CEvent × ℚ)) (member : CEvent) (score : ℚ) : List (CEvent × ℚ) :=
  if member ∈ store.map Prod.fst then
    store.map (fun p => if p.1 = member then (member, score) else p)
  else store ++ [(member, score)]

/-- ConfluenceDetector.record_trade restricted to one key
(side, chain, token): it serializes wallet, timestamp, side and
metadata into one member and ZADDs it with the timestamp as score. -/
def record_trade (store : List (CEvent × ℚ)) (wallet side : String)
    (meta : List (String × String)) (now : ℚ) : List (CEvent × ℚ) :=
  zadd store ⟨wallet, now, side, meta⟩ now

/-- The dedup loop of check_confluence: walk the entries in time
order, keep an event when its wallet has not been seen yet. -/
def dedupByWallet : List CEvent → List String → List CEvent
  | [], _ => []
  | e :: rest, seen =>
    if e.wallet ∈ seen then dedupByWallet rest seen
    else e :: dedupByWallet rest (e.wallet :: seen)

/-- ConfluenceDetector.check_confluence on one key: remove entries
with score at most now - window (ZREMRANGEBYSCORE is inclusive),
return none when fewer raw entries than min_wallets remain, otherwise
dedup by wallet and return the events iff at least min_wallets unique
wallets remain. -/
def check_confluence (store : List CEvent) (now windowMinutes : ℚ)
    (min_wallets : ℕ) : Option (List CEvent) :=
  let cutoff := now - windowMinutes
  let entries := store.filter (fun e => cutoff < e.ts)
  if entries.length < min_wallets then none
  else
    let events := dedupByWallet entries []
    if min_wallets ≤ events.length then some events else none

/-- Modelled from the spec words of C2, for comparison with the code:
drop only the entries with ts strictly below now - window, dedup by
wallet, and return the events iff at least min_wallets remain. -/
def check_confluence_specword (store : List CEvent) (now windowMinutes : ℚ)
    (min_wallets : ℕ) : Option (List CEvent) :=
  let cutoff := now - windowMinutes
  let entries := store.filter (fun e => ¬ e.ts < cutoff)
  let events := dedupByWallet entries []
  if min_wallets ≤ events.length then some events else none

/-- The dedup loop never returns more events than it was given. -/
theorem dedupByWallet_length_le : ∀ (l : List CEvent) (seen : List String),
    (dedupByWallet l seen).length ≤ l.length := by
  intro l
  induction l with
  | nil => intro seen; simp [dedupByWallet]
  | cons e rest ih =>
    intro seen
    by_cases h : e.wallet ∈ seen
    · simp only [dedupByWallet, if_pos h]
      exact Nat.le_succ_of_le (ih seen)
    · simp only [dedupByWallet, if_neg h, List.length_cons]
      exact Nat.succ_le_succ (ih (e.wallet :: seen))

/-- The wallets returned by the dedup loop are pairwise distinct and
avoid the seen accumulator. -/
theorem dedupByWallet_wallets_nodup : ∀ (l : List CEvent) (seen : List String),
    ((dedupByWallet l seen).map CEvent.wallet).Nodup ∧
      ∀ w ∈ (dedupByWallet l seen).map CEvent.wallet, w ∉ seen := by
  intro l
  induction l with
  | nil => intro seen; simp [dedupByWallet]
  | cons e rest ih =>
    intro seen
    by_cases h : e.wallet ∈ seen
    · simp only [dedupByWallet, if_pos h]
      exact ih seen
    · simp only [dedupByWallet, if_neg h, List.map_cons]
      constructor
      · refine List.nodup_cons.mpr ⟨?_, (ih (e.wallet :: seen)).1⟩
        intro hmem
        exact (ih (e.wallet :: seen)).2 e.wallet hmem (List.mem_cons_self _ _)
      · intro w hw hwseen
        rcases List.mem_cons.mp hw with hwe | hwrest
        · exact h (hwe ▸ hwseen)
        · exact (ih (e.wallet :: seen)).2 w hwrest (List.mem_cons_of_mem _ hwseen)

/-- The S5 store: W1 at five minutes before now, W1 again at three
minutes before now, W2 at one minute before now, in score order. -/
def s5Store : List CEvent :=
  [⟨"W1", -5, "buy", []⟩, ⟨"W1", -3, "buy", []⟩, ⟨"W2", -1, "buy", []⟩]

/-- A store holding a single event whose timestamp sits exactly on the
window boundary now - window. -/
def boundaryStore : List CEvent := [⟨"W1", 0, "buy", []⟩]

/-- Counterexample to C2 as stated: an entry recorded exactly at
now - window is not older than the cutoff, yet check_confluence drops
it (ZREMRANGEBYSCORE is inclusive at the cutoff) and answers none,
while the spec wording keeps it and answers with the event. -/
theorem check_confluence_boundary_c2 :
    check_confluence boundaryStore 30 30 1 = none ∧
    check_confluence_specword boundaryStore 30 30 1 = some [⟨"W1", 0, "buy", []⟩] := by
  constructor
  · norm_num [check_confluence, boundaryStore]
  · norm_num [check_confluence_specword, boundaryStore, dedupByWallet]

/-- C2 amended: check drops entries with timestamp at most now minus
the window (the boundary inclusive), dedups the survivors by wallet
keeping the first occurrence in time order, and returns them iff at
least min_wallets unique wallets remain; returned wallets are strictly
unique, and the S5 scenario returns exactly W1 (first occurrence) and
W2. -/
theorem check_confluence_c2 :
    (∀ (store : List CEvent) (now w : ℚ) (mw : ℕ),
      check_confluence store now w mw =
        (if mw ≤ (dedupByWallet (store.filter (fun e => now - w < e.ts)) []).length
          then some (dedupByWallet (store.filter (fun e => now - w < e.ts)) [])
          else none)) ∧
    (∀ (store : List CEvent) (now w : ℚ) (mw : ℕ) (evs : List CEvent),
      check_confluence store now w mw = some evs → (evs.map CEvent.wallet).Nodup) ∧
    check_confluence s5Store 0 30 2 = some [⟨"W1", -5, "buy", []⟩, ⟨"W2", -1, "buy", []⟩] := by
  have hchar : ∀ (store : List CEvent) (now w : ℚ) (mw : ℕ),
      check_confluence store now w mw =
        (if mw ≤ (dedupByWallet (store.filter (fun e => now - w < e.ts)) []).length
          then some (dedupByWallet (store.filter (fun e => now - w < e.ts)) [])
          else none) := by
    intro store now w mw
    rw [check_confluence]
    by_cases hraw : (store.filter (fun e => now - w < e.ts)).length < mw
    · rw [if_pos hraw, if_neg]
      intro hde
      exact absurd (le_trans hde (dedupByWallet_length_le _ _)) (Nat.not_le.mpr hraw)
    · rw [if_neg hraw]
  refine ⟨hchar, ?_, ?_⟩
  · intro store now w mw evs hsome
    rw [hchar] at hsome
    by_cases hle : mw ≤ (dedupByWallet (store.filter (fun e => now - w < e.ts)) []).length
    · rw [if_pos hle] at hsome
      cases hsome
      exact (dedupByWallet_wallets_nodup _ _).1
    · rw [if_neg hle] at hsome
      cases hsome
  · have hW : ("W2" : String) ≠ "W1" := by decide
    norm_num [check_confluence, s5Store, dedupByWallet, hW]

/-- Witness for C2: the uniqueness clause applied to the S5 scenario,
whose hypothesis is discharged by the proved S5 evaluation. -/
theorem check_confluence_c2_witness :
    (List.map CEvent.wallet
      [(⟨"W1", -5, "buy", []⟩ : CEvent), ⟨"W2", -1, "buy", []⟩]).Nodup :=
  check_confluence_c2.2.1 s5Store 0 30 2 _ check_confluence_c2.2.2

/-- ZADD of the same member and score twice equals ZADD once. -/
theorem zadd_idem (s : List (CEvent × ℚ)) (m : CEvent) (c : ℚ) :
    zadd (zadd s m c) m c = zadd s m c := by
  by_cases h : m ∈ s.map Prod.fst
  · have hinner : zadd s m c = s.map (fun p => if p.1 = m then (m, c) else p) := by
      rw [zadd, if_pos h]
    rw [hinner]
    have h2 : m ∈ (s.map fun p => if p.1 = m then (m, c) else p).map Prod.fst := by
      rcases List.mem_map.mp h with ⟨p, hp, hpm⟩
      exact List.mem_map.mpr
        ⟨(m, c), List.mem_map.mpr ⟨p, hp, by rw [if_pos hpm]⟩, rfl⟩
    rw [zadd, if_pos h2, List.map_map]
    apply List.map_congr_left
    intro p _
    by_cases hp : p.1 = m
    · simp [Function.comp, hp]
    · simp [Function.comp, hp]
  · have hinner : zadd s m c = s ++ [(m, c)] := by
      rw [zadd, if_neg h]
    rw [hinner]
    have h2 : m ∈ ((s ++ [(m, c)]).map Prod.fst) := by simp
    rw [zadd, if_pos h2, List.map_append]
    have hs : s.map (fun p => if p.1 = m then (m, c) else p) = s := by
      have heach : ∀ p ∈ s, (if p.1 = m then (m, c) else p) = p := by
        intro p hp
        rw [if_neg]
        intro hpm
        exact h (List.mem_map.mpr ⟨p, hp, hpm⟩)
      rw [List.map_congr_left heach]
      simp
    rw [hs]
    simp

/-- Counterexample to C7 as stated: recording the same (wallet, ts)
with different metadata twice leaves two members in the sorted set,
while recording once leaves one member, whichever metadata is used. -/
theorem record_trade_meta_c7 :
    (record_trade (record_trade [] "W1" "buy" [("price_usd", "1")] 0)
        "W1" "buy" [("price_usd", "2")] 0).length = 2 ∧
    (record_trade [] "W1" "buy" [("price_usd", "1")] 0).length = 1 ∧
    (record_trade [] "W1" "buy" [("price_usd", "2")] 0).length = 1 := by
  decide

/-- C7 amended: record_trade is idempotent for an identical event,
namely for a fixed wallet, timestamp, side and serialized metadata;
composing it with itself equals one application on every store. -/
theorem record_trade_idem_c7 (store : List (CEvent × ℚ)) (wallet side : String)
    (meta : List (String × String)) (now : ℚ) :
    record_trade (record_trade store wallet side meta now) wallet side meta now =
      record_trade store wallet side meta now :=
  zadd_idem store ⟨wallet, now, side, meta⟩ now

end Confluence

namespace PaperTrading

/-- The per-token position dict entry written by
PaperTradingTracker.execute_buy in src/analytics/paper_trading.py. -/
structure PTPosition where
  chain_id : String
  qty : ℚ
  entry_price : ℚ
  cost_basis : ℚ
  bought_at : ℚ
  reason : String
  num_whales : ℕ
deriving Repr, DecidableEq

/-- Python dict assignment d[k] = v on an insertion-ordered
association list: replace the entry of an existing key in place,
append a fresh key at the end. -/
def dictInsert (k : String) (v : PTPosition) :
    List (String × PTPosition) → List (String × PTPosition)
  | [] => [(k, v)]
  | (k0, v0) :: rest =>
    if k0 = k then (k, v) :: rest else (k0, v0) :: dictInsert k v rest

/-- The cash balance and open-position dict of the paper trader. -/
structure TrackerState where
  balance : ℚ
  positions : List (String × PTPosition)
deriving Repr, DecidableEq

/-- PaperTradingTracker.execute_buy: fail when the amount exceeds the
cash balance, otherwise store qty = amount / price under the token key
(overwriting any existing entry) and deduct the amount from cash. -/
def execute_buy (st : TrackerState) (token chain : String) (price amount : ℚ)
    (reason : String) (numWhales : ℕ) (now : ℚ) : Bool × TrackerState :=
  if st.balance < amount then (false, st)
  else
    (true,
      { balance := st.balance - amount,
        positions := dictInsert token
          ⟨chain, amount / price, price, amount, now, reason, numWhales⟩ st.positions })

/-- Replacing an existing key leaves the key list of the dict
unchanged. -/
theorem dictInsert_keys_of_mem (k : String) (v : PTPosition) :
    ∀ (l : List (String × PTPosition)), k ∈ l.map Prod.fst →
      (dictInsert k v l).map Prod.fst = l.map Prod.fst := by
  intro l
  induction l with
  | nil => intro h; cases h
  | cons p rest ih =>
    intro h
    by_cases hk : p.1 = k
    · simp only [dictInsert]
      rw [if_pos hk]
      simp [hk]
    · simp only [dictInsert]
      rw [if_neg hk]
      simp only [List.map_cons]
      have hmem : k ∈ rest.map Prod.fst := by
        rcases List.mem_map.mp h with ⟨q, hq, hqk⟩
        rcases List.mem_cons.mp hq with h1 | h2
        · exact absurd (h1 ▸ hqk) hk
        · exact List.mem_map.mpr ⟨q, h2, hqk⟩
      rw [ih hmem]

/-- After dictInsert the inserted key looks up to the new value. -/
theorem dictInsert_lookup (k : String) (v : PTPosition) :
    ∀ (l : List (String × PTPosition)), (dictInsert k v l).lookup k = some v := by
  intro l
  induction l with
  | nil => simp [dictInsert, List.lookup]
  | cons p rest ih =>
    by_cases hk : p.1 = k
    · simp only [dictInsert]
      rw [if_pos hk]
      simp [List.lookup]
    · simp only [dictInsert]
      rw [if_neg hk]
      have : (k == p.1) = false := by
        simp [beq_iff_eq]
        intro hkk
        exact hk hkk.symm
      simp [List.lookup, this, ih]

/-- C10: execute_buy with amount within the balance while the token is
already held succeeds, silently replaces the stored position with the
new one (the key set of the dict is unchanged and the token key now
maps to the fresh entry), credits nothing back for the old quantity,
deducts the full amount from cash again, and the dict still holds
exactly one entry for the token. -/
theorem execute_buy_replaces_c10 (st : TrackerState) (token chain : String)
    (price amount now : ℚ) (reason : String) (numWhales : ℕ)
    (hbal : amount ≤ st.balance) (hheld : token ∈ st.positions.map Prod.fst)
    (hnd : (st.positions.map Prod.fst).Nodup) :
    (execute_buy st token chain price amount reason numWhales now).1 = true ∧
    (execute_buy st token chain price amount reason numWhales now).2.balance =
      st.balance - amount ∧
    (execute_buy st token chain price amount reason numWhales now).2.positions.lookup token =
      some ⟨chain, amount / price, price, amount, now, reason, numWhales⟩ ∧
    (execute_buy st token chain price amount reason numWhales now).2.positions.map Prod.fst =
      st.positions.map Prod.fst ∧
    ((execute_buy st token chain price amount reason numWhales now).2.positions.map
      Prod.fst).count token = 1 := by
  have hnlt : ¬ st.balance < amount := not_lt.mpr hbal
  rw [execute_buy, if_neg hnlt]
  refine ⟨rfl, rfl, ?_, ?_, ?_⟩
  · exact dictInsert_lookup token _ st.positions
  · exact dictInsert_keys_of_mem token _ st.positions hheld
  · rw [dictInsert_keys_of_mem token _ st.positions hheld]
    exact List.count_eq_one_of_mem hnd hheld

/-- Witness for C10: rebuying a held token with 100 dollars at price 2
replaces the stored lot and deducts another 100 dollars. -/
theorem execute_buy_replaces_c10_witness :
    (execute_buy ⟨1000, [("T", ⟨"ethereum", 10, 1, 10, 0, "seed", 2⟩)]⟩
        "T" "ethereum" 2 100 "again" 3 5).1 = true ∧
    (execute_buy ⟨1000, [("T", ⟨"ethereum", 10, 1, 10, 0, "seed", 2⟩)]⟩
        "T" "ethereum" 2 100 "again" 3 5).2.balance = 1000 - 100 ∧
    (execute_buy ⟨1000, [("T", ⟨"ethereum", 10, 1, 10, 0, "seed", 2⟩)]⟩
        "T" "ethereum" 2 100 "again" 3 5).2.positions.lookup "T" =
      some ⟨"ethereum", 100 / 2, 2, 100, 5, "again", 3⟩ ∧
    (execute_buy ⟨1000, [("T", ⟨"ethereum", 10, 1, 10, 0, "seed", 2⟩)]⟩
        "T" "ethereum" 2 100 "again" 3 5).2.positions.map Prod.fst =
      ([("T", (⟨"ethereum", 10, 1, 10, 0, "seed", 2⟩ : PTPosition))].map Prod.fst) ∧
    (((execute_buy ⟨1000, [("T", ⟨"ethereum", 10, 1, 10, 0, "seed", 2⟩)]⟩
        "T" "ethereum" 2 100 "again" 3 5).2.positions.map Prod.fst).count "T") = 1 :=
  execute_buy_replaces_c10 ⟨1000, [("T", ⟨"ethereum", 10, 1, 10, 0, "seed", 2⟩)]⟩
    "T" "ethereum" 2 100 5 "again" 3 (by norm_num) (by decide) (by decide)

end PaperTrading

namespace PositionManager

/-- The position fields read by the exit logic of
src/monitoring/position_manager.py: quantity, cost basis, buy time (in
hours), the optional take-profit, stop-loss and peak-profit keys. -/
structure ManagedPos where
  chain_id : String
  qty : ℚ
  cost_basis : ℚ
  bought_at : ℚ
  take_profit_pct : Option ℚ
  stop_loss_pct : Option ℚ
  peak_profit_pct : Option ℚ
deriving Repr, DecidableEq

/-- The exit rule that fired for a position, in evaluation order. -/
inductive ExitReason where
  | takeProfit
  | stopLoss
  | maxHold
  | trailingStop
deriving Repr, DecidableEq

/-- PositionManager.check_and_exit_positions for one position at one
mark: a zero price skips the position entirely; otherwise the rules
fire in order take-profit, stop-loss, 24h max hold, then the trailing
branch for returns of at least 15 percent, which first refreshes the
recorded peak when the current return strictly exceeds it and then
exits when the current return sits more than 8 points below the peak.
Returns the exit decision and the (possibly peak-updated) position. -/
def checkPosition (pos : ManagedPos) (price now : ℚ) : Option ExitReason × ManagedPos :=
  if price = 0 then (none, pos)
  else
    let profit_pct := (pos.qty * price - pos.cost_basis) / pos.cost_basis * 100
    let take_profit := pos.take_profit_pct.getD 20
    let stop_loss := pos.stop_loss_pct.getD (-15)
    let hold_hours := now - pos.bought_at
    if take_profit ≤ profit_pct then (some .takeProfit, pos)
    else if profit_pct ≤ stop_loss then (some .stopLoss, pos)
    else if 24 ≤ hold_hours then (some .maxHold, pos)
    else if 15 ≤ profit_pct then
      let peak := pos.peak_profit_pct.getD profit_pct
      if peak < profit_pct then
        let pos' := { pos with peak_profit_pct := some profit_pct }
        if profit_pct < profit_pct - 8 then (some .trailingStop, pos')
        else (none, pos')
      else
        if profit_pct < peak - 8 then (some .trailingStop, pos)
        else (none, pos)
    else (none, pos)

/-- One full mark cycle over the open-position dict: positions whose
check fires an exit are sold and removed, the others are kept with any
peak update applied. -/
def markCycle (priceOf : String → ℚ) (now : ℚ) :
    List (String × ManagedPos) → List (String × ManagedPos) × List String
  | [] => ([], [])
  | (tok, pos) :: rest =>
    let step := checkPosition pos (priceOf tok) now
    let restRes := markCycle priceOf now rest
    match step.1 with
    | some _ => (restRes.1, tok :: restRes.2)
    | none => ((tok, step.2) :: restRes.1, restRes.2)

/-- The scheduler job manage_positions_job in
src/scheduler/position_manager.py for one position: a zero price skips
the position, otherwise it sells at a return of at least +5 percent,
at most -10 percent, or at most -5 percent while cash is below 400. -/
def manageJobShouldSell (pos : ManagedPos) (price balance : ℚ) : Bool :=
  if price = 0 then false
  else
    let profit_pct := (pos.qty * price - pos.cost_basis) / pos.cost_basis * 100
    if 5 ≤ profit_pct then true
    else if profit_pct ≤ -10 then true
    else if profit_pct ≤ -5 ∧ balance < 400 then true
    else false

/-- C3: a mark of zero (all price sources failed) never exits a paper
position: the per-position check returns no exit and an unchanged
position, the full mark cycle keeps such a position untouched and
never lists its token among the sells, and the scheduler job also
refuses to sell at a zero mark. -/
theorem zero_mark_never_exits_c3 :
    (∀ (pos : ManagedPos) (now : ℚ), checkPosition pos 0 now = (none, pos)) ∧
    (∀ (priceOf : String → ℚ) (now : ℚ) (ps : List (String × ManagedPos))
        (tok : String) (pos : ManagedPos), priceOf tok = 0 → (tok, pos) ∈ ps →
      (tok, pos) ∈ (markCycle priceOf now ps).1 ∧ tok ∉ (markCycle priceOf now ps).2) ∧
    (∀ (pos : ManagedPos) (balance : ℚ), manageJobShouldSell pos 0 balance = false) := by
  have hstep : ∀ (pos : ManagedPos) (now : ℚ), checkPosition pos 0 now = (none, pos) := by
    intro pos now
    rw [checkPosition, if_pos rfl]
  have hnoexit : ∀ (priceOf : String → ℚ) (now : ℚ) (ps : List (String × ManagedPos))
      (tok : String), priceOf tok = 0 → tok ∉ (markCycle priceOf now ps).2 := by
    intro priceOf now ps
    induction ps with
    | nil => intro tok _ hc; cases hc
    | cons hd rest ih =>
      intro tok hz hc
      obtain ⟨t0, p0⟩ := hd
      rw [markCycle] at hc
      cases hex : (checkPosition p0 (priceOf t0) now).1 with
      | some r =>
        simp only [hex] at hc
        rcases List.mem_cons.mp hc with hc1 | hc2
        · subst hc1
          rw [hz, hstep] at hex
          cases hex
        · exact ih tok hz hc2
      | none =>
        simp only [hex] at hc
        exact ih tok hz hc
  have hkeep : ∀ (priceOf : String → ℚ) (now : ℚ) (ps : List (String × ManagedPos))
      (tok : String) (pos : ManagedPos), priceOf tok = 0 → (tok, pos) ∈ ps →
      (tok, pos) ∈ (markCycle priceOf now ps).1 := by
    intro priceOf now ps
    induction ps with
    | nil => intro tok pos _ hm; cases hm
    | cons hd rest ih =>
      intro tok pos hz hm
      obtain ⟨t0, p0⟩ := hd
      rw [markCycle]
      rcases List.mem_cons.mp hm with hm1 | hm2
      · rw [Prod.mk.injEq] at hm1
        obtain ⟨h1, h2⟩ := hm1
        subst h1
        subst h2
        rw [hz, hstep]
        exact List.mem_cons_self _ _
      · cases hex : (checkPosition p0 (priceOf t0) now).1 with
        | some r =>
          simp only [hex]
          exact ih tok pos hz hm2
        | none =>
          simp only [hex]
          exact List.mem_cons_of_mem _ (ih tok pos hz hm2)
  refine ⟨hstep, ?_, ?_⟩
  · intro priceOf now ps tok pos hz hm
    exact ⟨hkeep priceOf now ps tok pos hz hm, hnoexit priceOf now ps tok hz⟩
  · intro pos balance
    rw [manageJobShouldSell, if_pos rfl]

/-- Witness for C3: a zero price function keeps a concrete position
open through a whole mark cycle. -/
theorem zero_mark_never_exits_c3_witness :
    ("T", (⟨"ethereum", 1, 100, 0, some 40, some (-15), none⟩ : ManagedPos)) ∈
      (markCycle (fun _ => 0) 1
        [("T", ⟨"ethereum", 1, 100, 0, some 40, some (-15), none⟩)]).1 ∧
    "T" ∉ (markCycle (fun _ => 0) 1
        [("T", ⟨"ethereum", 1, 100, 0, some 40, some (-15), none⟩)]).2 :=
  zero_mark_never_exits_c3.2.1 (fun _ => 0) 1
    [("T", ⟨"ethereum", 1, 100, 0, some 40, some (-15), none⟩)]
    "T" ⟨"ethereum", 1, 100, 0, some 40, some (-15), none⟩ rfl (List.mem_singleton.mpr rfl)

/-- C5 is right about the intent and the code is wrong: the recorded
peak can never come into existence.  For any position whose
peak_profit_pct key is unset (as every position is when bought), a
mark never stores a peak and never exits through the trailing stop,
because the peak defaults to the current return and the update guard
is a strict comparison; concretely, with take-profit +40 a mark at
+30 percent followed by one at +20 percent holds the position both
times instead of exiting 10 points below the peak. -/
theorem trailing_stop_dead_c5 (pos : ManagedPos) (price now : ℚ)
    (hpeak : pos.peak_profit_pct = none) :
    ((checkPosition pos price now).1 ≠ some ExitReason.trailingStop ∧
      (checkPosition pos price now).2 = pos) ∧
    checkPosition ⟨"ethereum", 1, 100, 0, some 40, some (-15), none⟩ 130 1 =
      (none, ⟨"ethereum", 1, 100, 0, some 40, some (-15), none⟩) ∧
    checkPosition ⟨"ethereum", 1, 100, 0, some 40, some (-15), none⟩ 120 2 =
      (none, ⟨"ethereum", 1, 100, 0, some 40, some (-15), none⟩) := by
  refine ⟨?_, ?_, ?_⟩
  · rw [checkPosition]
    by_cases h0 : price = 0
    · rw [if_pos h0]
      exact ⟨by simp, rfl⟩
    · rw [if_neg h0]
      simp only [hpeak, Option.getD_none]
      split_ifs with h1 h2 h3 h4 h5 h6 h7
      · exact ⟨by simp, rfl⟩
      · exact ⟨by simp, rfl⟩
      · exact ⟨by simp, rfl⟩
      · exact absurd h5 (lt_irrefl _)
      · exact absurd h5 (lt_irrefl _)
      · exact absurd h7 (by intro hc; linarith)
      · exact ⟨by simp, rfl⟩
      · exact ⟨by simp, rfl⟩
  · norm_num [checkPosition]
  · norm_num [checkPosition]

/-- Witness for C5: the dead-code clause evaluated on a concrete
freshly bought position. -/
theorem trailing_stop_dead_c5_witness :
    ((checkPosition ⟨"ethereum", 1, 100, 0, some 40, some (-15), none⟩ 130 1).1 ≠
        some ExitReason.trailingStop ∧
      (checkPosition ⟨"ethereum", 1, 100, 0, some 40, some (-15), none⟩ 130 1).2 =
        ⟨"ethereum", 1, 100, 0, some 40, some (-15), none⟩) ∧
    checkPosition ⟨"ethereum", 1, 100, 0, some 40, some (-15), none⟩ 130 1 =
      (none, ⟨"ethereum", 1, 100, 0, some 40, some (-15), none⟩) ∧
    checkPosition ⟨"ethereum", 1, 100, 0, some 40, some (-15), none⟩ 120 2 =
      (none, ⟨"ethereum", 1, 100, 0, some 40, some (-15), none⟩) :=
  trailing_stop_dead_c5 ⟨"ethereum", 1, 100, 0, some 40, some (-15), none⟩ 130 1 rfl

end PositionManager

namespace WalletMonitor

/-- The aggressive position-sizing tiers of
WalletMonitor._execute_paper_buy: fraction of cash invested,
take-profit percent and stop-loss percent by whale count. -/
def tierParams (numWhales : ℕ) : ℚ × ℚ × ℚ :=
  if 10 ≤ numWhales then (0.60, 40, -15)
  else if 7 ≤ numWhales then (0.50, 35, -15)
  else (0.40, 30, -15)

/-- The dollar amount invested and the dynamic targets stored on the
position after a successful paper buy. -/
structure BuyTargets where
  invested : ℚ
  take_profit : ℚ
  stop_loss : ℚ
deriving Repr, DecidableEq

/-- WalletMonitor._execute_paper_buy: skip unless the meme filter
passed, fewer than 3 positions are open, the token is not already
held, the price router returned a nonzero price, and the tier-sized
buy amount is at least 10 dollars; then delegate to the paper trader
and report the invested amount with the tier targets. -/
def executePaperBuy (isMeme : Bool) (st : PaperTrading.TrackerState)
    (token chain : String) (price : ℚ) (numWhales : ℕ) (now : ℚ) :
    Option (BuyTargets × PaperTrading.TrackerState) :=
  if isMeme = false then none
  else if 3 ≤ st.positions.length then none
  else if token ∈ st.positions.map Prod.fst then none
  else if price = 0 then none
  else
    let params := tierParams numWhales
    let buyAmount := st.balance * params.1
    if buyAmount < 10 then none
    else
      let res := PaperTrading.execute_buy st token chain price buyAmount
        (toString numWhales ++ " whale confluence") numWhales now
      if res.1 then some (⟨buyAmount, params.2.1, params.2.2⟩, res.2) else none

/-- The dispatch on the confluence side in WalletMonitor.check
handling: the paper buy path runs only for side equal to buy. -/
def paperTradeOnConfluence (side : String) (isMeme : Bool)
    (st : PaperTrading.TrackerState) (token chain : String) (price : ℚ)
    (numWhales : ℕ) (now : ℚ) : Option (BuyTargets × PaperTrading.TrackerState) :=
  if side = "buy" then executePaperBuy isMeme st token chain price numWhales now
  else none

/-- C4: a paper buy executes only when the confluence is on the buy
side, the meme filter passed, fewer than 3 positions are open, the
token is not held, and cash is at least 10 dollars; and the executed
buy invests the tier fraction of cash with the tier take-profit and a
-15 stop-loss: 60 percent and +40 for ten or more whales, 50 percent
and +35 for seven to nine, otherwise 40 percent and +30. -/
theorem paper_buy_policy_c4 (side : String) (isMeme : Bool)
    (st : PaperTrading.TrackerState) (token chain : String) (price : ℚ)
    (numWhales : ℕ) (now : ℚ) (r : BuyTargets × PaperTrading.TrackerState)
    (hsome : paperTradeOnConfluence side isMeme st token chain price numWhales now = some r) :
    side = "buy" ∧ isMeme = true ∧ st.positions.length < 3 ∧
    token ∉ st.positions.map Prod.fst ∧ (10 : ℚ) ≤ st.balance ∧
    r.1.invested = st.balance * (tierParams numWhales).1 ∧
    r.1.take_profit = (tierParams numWhales).2.1 ∧
    r.1.stop_loss = -15 ∧
    (10 ≤ numWhales → r.1.invested = st.balance * 0.60 ∧ r.1.take_profit = 40) ∧
    (7 ≤ numWhales → numWhales < 10 →
      r.1.invested = st.balance * 0.50 ∧ r.1.take_profit = 35) ∧
    (numWhales < 7 → r.1.invested = st.balance * 0.40 ∧ r.1.take_profit = 30) := by
  rw [paperTradeOnConfluence] at hsome
  by_cases hside : side = "buy"
  swap
  · rw [if_neg hside] at hsome
    cases hsome
  rw [if_pos hside] at hsome
  simp only [executePaperBuy] at hsome
  split_ifs at hsome with h1 h2 h3 h4 h5 h6
  cases hsome
  have hmeme : isMeme = true := by
    revert h1
    cases isMeme <;> simp
  have hpct : 0 < (tierParams numWhales).1 ∧ (tierParams numWhales).1 ≤ 0.6 := by
    rw [tierParams]
    split_ifs <;> norm_num
  have hbal : (10 : ℚ) ≤ st.balance := by
    have h5le : (10 : ℚ) ≤ st.balance * (tierParams numWhales).1 := not_lt.mp h5
    by_contra hb
    push_neg at hb
    have hlt : st.balance * (tierParams numWhales).1 < 10 * (tierParams numWhales).1 :=
      mul_lt_mul_of_pos_right hb hpct.1
    nlinarith [hpct.2, hpct.1]
  refine ⟨hside, hmeme, not_le.mp h2, h3, hbal, rfl, rfl, ?_, ?_, ?_, ?_⟩
  · rw [tierParams]
    split_ifs <;> norm_num
  · intro hw
    rw [tierParams, if_pos hw]
    exact ⟨rfl, rfl⟩
  · intro hw7 hw10
    rw [tierParams, if_neg (not_le.mpr hw10), if_pos hw7]
    exact ⟨rfl, rfl⟩
  · intro hw7
    rw [tierParams, if_neg (fun h => absurd h (by omega)), if_neg (not_le.mpr hw7)]
    exact ⟨rfl, rfl⟩

/-- Witness for C4: five whales with 1000 dollars of cash and no open
position invest 40 percent with take-profit +30 and stop-loss -15. -/
theorem paper_buy_policy_c4_witness :
    "buy" = "buy" ∧ true = true ∧
    (⟨1000, []⟩ : PaperTrading.TrackerState).positions.length < 3 ∧
    "T" ∉ (⟨1000, []⟩ : PaperTrading.TrackerState).positions.map Prod.fst ∧
    (10 : ℚ) ≤ (⟨1000, []⟩ : PaperTrading.TrackerState).balance ∧
    ((⟨(1000 : ℚ) * 0.40, 30, -15⟩ : BuyTargets),
        (⟨1000 - 1000 * 0.40,
          [("T", ⟨"ethereum", 1000 * 0.40 / 1, 1, 1000 * 0.40, 0,
            toString 5 ++ " whale confluence", 5⟩)]⟩ :
          PaperTrading.TrackerState)).1.invested =
      (⟨1000, []⟩ : PaperTrading.TrackerState).balance * (tierParams 5).1 ∧
    ((⟨(1000 : ℚ) * 0.40, 30, -15⟩ : BuyTargets),
        (⟨1000 - 1000 * 0.40,
          [("T", ⟨"ethereum", 1000 * 0.40 / 1, 1, 1000 * 0.40, 0,
            toString 5 ++ " whale confluence", 5⟩)]⟩ :
          PaperTrading.TrackerState)).1.take_profit = (tierParams 5).2.1 ∧
    ((⟨(1000 : ℚ) * 0.40, 30, -15⟩ : BuyTargets),
        (⟨1000 - 1000 * 0.40,
          [("T", ⟨"ethereum", 1000 * 0.40 / 1, 1, 1000 * 0.40, 0,
            toString 5 ++ " whale confluence", 5⟩)]⟩ :
          PaperTrading.TrackerState)).1.stop_loss = -15 ∧
    (10 ≤ 5 →
      ((⟨(1000 : ℚ) * 0.40, 30, -15⟩ : BuyTargets),
        (⟨1000 - 1000 * 0.40,
          [("T", ⟨"ethereum", 1000 * 0.40 / 1, 1, 1000 * 0.40, 0,
            toString 5 ++ " whale confluence", 5⟩)]⟩ :
          PaperTrading.TrackerState)).1.invested =
        (⟨1000, []⟩ : PaperTrading.TrackerState).balance * 0.60 ∧
      ((⟨(1000 : ℚ) * 0.40, 30, -15⟩ : BuyTargets),
        (⟨1000 - 1000 * 0.40,
          [("T", ⟨"ethereum", 1000 * 0.40 / 1, 1, 1000 * 0.40, 0,
            toString 5 ++ " whale confluence", 5⟩)]⟩ :
          PaperTrading.TrackerState)).1.take_profit = 40) ∧
    (7 ≤ 5 → 5 < 10 →
      ((⟨(1000 : ℚ) * 0.40, 30, -15⟩ : BuyTargets),
        (⟨1000 - 1000 * 0.40,
          [("T", ⟨"ethereum", 1000 * 0.40 / 1, 1, 1000 * 0.40, 0,
            toString 5 ++ " whale confluence", 5⟩)]⟩ :
          PaperTrading.TrackerState)).1.invested =
        (⟨1000, []⟩ : PaperTrading.TrackerState).balance * 0.50 ∧
      ((⟨(1000 : ℚ) * 0.40, 30, -15⟩ : BuyTargets),
        (⟨1000 - 1000 * 0.40,
          [("T", ⟨"ethereum", 1000 * 0.40 / 1, 1, 1000 * 0.40, 0,
            toString 5 ++ " whale confluence", 5⟩)]⟩ :
          PaperTrading.TrackerState)).1.take_profit = 35) ∧
    (5 < 7 →
      ((⟨(1000 : ℚ) * 0.40, 30, -15⟩ : BuyTargets),
        (⟨1000 - 1000 * 0.40,
          [("T", ⟨"ethereum", 1000 * 0.40 / 1, 1, 1000 * 0.40, 0,
            toString 5 ++ " whale confluence", 5⟩)]⟩ :
          PaperTrading.TrackerState)).1.invested =
        (⟨1000, []⟩ : PaperTrading.TrackerState).balance * 0.40 ∧
      ((⟨(1000 : ℚ) * 0.40, 30, -15⟩ : BuyTargets),
        (⟨1000 - 1000 * 0.40,
          [("T", ⟨"ethereum", 1000 * 0.40 / 1, 1, 1000 * 0.40, 0,
            toString 5 ++ " whale confluence", 5⟩)]⟩ :
          PaperTrading.TrackerState)).1.take_profit = 30) :=
  paper_buy_policy_c4 "buy" true ⟨1000, []⟩ "T" "ethereum" 1 5 0
    (⟨(1000 : ℚ) * 0.40, 30, -15⟩,
      ⟨1000 - 1000 * 0.40,
        [("T", ⟨"ethereum", 1000 * 0.40 / 1, 1, 1000 * 0.40, 0,
          toString 5 ++ " whale confluence", 5⟩)]⟩)
    (by norm_num [paperTradeOnConfluence, executePaperBuy, tierParams,
      PaperTrading.execute_buy, PaperTrading.dictInsert])

end WalletMonitor

namespace Early

/-- EarlyScoreCalculator._calculate_rank_score: 40 times one minus the
rank percentile, where the percentile is the count of unique earlier
buyers over the total unique buyer count floored at one. -/
def rankScore (buyersBefore totalBuyers : ℕ) : ℚ :=
  40 * (1 - (buyersBefore : ℚ) / ((max totalBuyers 1 : ℕ) : ℚ))

/-- EarlyScoreCalculator._calculate_mc_score: neutral 20 when the
token has no liquidity figure (Python treats 0.0 as missing too),
otherwise market cap is estimated as liquidity times 3 against the one
million dollar target. -/
def mcScore (liquidity : Option ℚ) : ℚ :=
  match liquidity with
  | none => 20
  | some l =>
    if l = 0 then 20
    else if 1000000 ≤ l * 3 then 0
    else 40 * max 0 ((1000000 - l * 3) / 1000000)

/-- EarlyScoreCalculator._calculate_volume_score: zero without a
matching wallet buy or with zero window volume, otherwise 20 times the
participation share capped at one half and rescaled by one half. -/
def volScore (walletBuyValue : Option ℚ) (totalVolume : ℚ) : ℚ :=
  match walletBuyValue with
  | none => 0
  | some v =>
    if totalVolume = 0 then 0
    else 20 * (min (v / totalVolume) 0.5 / 0.5)

/-- EarlyScoreCalculator.calculate_score: the three components summed
and clamped into the 0 to 100 band. -/
def calculate_score (buyersBefore totalBuyers : ℕ) (liquidity : Option ℚ)
    (walletBuyValue : Option ℚ) (totalVolume : ℚ) : ℚ :=
  max 0 (min 100
    (rankScore buyersBefore totalBuyers + mcScore liquidity
      + volScore walletBuyValue totalVolume))

/-- C9: with liquidity data present and positive, a matching buy, and
positive window volume, the score equals
40(1 - rank percentile) + 40 clip((target - 3 liq)/target, 0, 1)
+ 20 min(participation, 0.5)/0.5; and for the first of 100 buyers at
30k estimated market cap and 0.2 participation the components are
40, 38.8 and 8 with total 86.8, within half a point of the spec
value. -/
theorem earlyscore_formula_c9 :
    (∀ (b t : ℕ) (l v tv : ℚ), b ≤ t → 0 < l → 0 ≤ v → 0 < tv →
      calculate_score b t (some l) (some v) tv =
        40 * (1 - (b : ℚ) / ((max t 1 : ℕ) : ℚ))
          + 40 * min (max ((1000000 - l * 3) / 1000000) 0) 1
          + 20 * (min (v / tv) 0.5 / 0.5)) ∧
    rankScore 0 100 = 40 ∧
    mcScore (some 10000) = 194 / 5 ∧
    volScore (some 20) 100 = 8 ∧
    calculate_score 0 100 (some 10000) (some 20) 100 = 434 / 5 ∧
    |calculate_score 0 100 (some 10000) (some 20) 100 - 868 / 10| ≤ 1 / 2 := by
  have hconc : calculate_score 0 100 (some 10000) (some 20) 100 = 434 / 5 := by
    norm_num [calculate_score, rankScore, mcScore, volScore, min_def, max_def]
  refine ⟨?_, ?_, ?_, ?_, hconc, ?_⟩
  · intro b t l v tv hb hl hv htv
    have hm1 : (1 : ℚ) ≤ ((max t 1 : ℕ) : ℚ) := by exact_mod_cast Nat.le_max_right t 1
    have hmpos : (0 : ℚ) < ((max t 1 : ℕ) : ℚ) := lt_of_lt_of_le one_pos hm1
    have hble : (b : ℚ) ≤ ((max t 1 : ℕ) : ℚ) := by
      exact_mod_cast le_trans hb (Nat.le_max_left t 1)
    have hrank_lo : 0 ≤ rankScore b t := by
      rw [rankScore]
      have : (b : ℚ) / ((max t 1 : ℕ) : ℚ) ≤ 1 := (div_le_one hmpos).mpr hble
      linarith
    have hrank_hi : rankScore b t ≤ 40 := by
      rw [rankScore]
      have : 0 ≤ (b : ℚ) / ((max t 1 : ℕ) : ℚ) :=
        div_nonneg (by exact_mod_cast Nat.zero_le b) hmpos.le
      linarith
    have hmc_eq : mcScore (some l) =
        40 * min (max ((1000000 - l * 3) / 1000000) 0) 1 := by
      simp only [mcScore]
      rw [if_neg hl.ne']
      by_cases hmc : (1000000 : ℚ) ≤ l * 3
      · rw [if_pos hmc]
        have hx : (1000000 - l * 3) / 1000000 ≤ 0 :=
          div_nonpos_iff.mpr (Or.inr ⟨by linarith, by norm_num⟩)
        rw [max_eq_right hx, min_eq_left (by norm_num : (0 : ℚ) ≤ 1)]
        norm_num
      · rw [if_neg hmc]
        push_neg at hmc
        have hx0 : 0 ≤ (1000000 - l * 3) / 1000000 :=
          div_nonneg (by linarith) (by norm_num)
        have hx1 : (1000000 - l * 3) / 1000000 ≤ 1 := by
          rw [div_le_one (by norm_num : (0 : ℚ) < 1000000)]
          linarith
        rw [max_eq_right hx0, max_eq_left hx0, min_eq_left hx1]
    have hmc_clip_lo : (0 : ℚ) ≤ min (max ((1000000 - l * 3) / 1000000) 0) 1 :=
      le_min (le_max_right _ _) zero_le_one
    have hmc_clip_hi : min (max ((1000000 - l * 3) / 1000000) 0) 1 ≤ 1 :=
      min_le_right _ _
    have hmc_lo : 0 ≤ mcScore (some l) := by
      rw [hmc_eq]
      linarith
    have hmc_hi : mcScore (some l) ≤ 40 := by
      rw [hmc_eq]
      linarith
    have hvol_eq : volScore (some v) tv = 20 * (min (v / tv) 0.5 / 0.5) := by
      simp only [volScore]
      rw [if_neg htv.ne']
    have hpart_lo : (0 : ℚ) ≤ min (v / tv) 0.5 :=
      le_min (div_nonneg hv htv.le) (by norm_num)
    have hpart_hi : min (v / tv) 0.5 ≤ 0.5 := min_le_right _ _
    have hhalf : min (v / tv) 0.5 / 0.5 = 2 * min (v / tv) 0.5 := by
      ring
    have hvol_lo : 0 ≤ volScore (some v) tv := by
      rw [hvol_eq, hhalf]
      linarith
    have hvol_hi : volScore (some v) tv ≤ 20 := by
      rw [hvol_eq, hhalf]
      linarith
    have hsum_lo : 0 ≤ rankScore b t + mcScore (some l) + volScore (some v) tv := by
      linarith
    have hsum_hi : rankScore b t + mcScore (some l) + volScore (some v) tv ≤ 100 := by
      linarith
    rw [calculate_score, min_eq_right hsum_hi, max_eq_right hsum_lo, hmc_eq, hvol_eq,
      rankScore]
  · norm_num [rankScore]
  · norm_num [mcScore, max_def]
  · norm_num [volScore, min_def]
  · rw [hconc]
    norm_num

/-- Witness for C9: the formula clause evaluated at the spec scenario
of the first of 100 buyers, 10k liquidity and 0.2 participation. -/
theorem earlyscore_formula_c9_witness :
    calculate_score 0 100 (some 10000) (some 20) 100 =
      40 * (1 - ((0 : ℕ) : ℚ) / ((max 100 1 : ℕ) : ℚ))
        + 40 * min (max ((1000000 - 10000 * 3) / 1000000) 0) 1
        + 20 * (min ((20 : ℚ) / 100) 0.5 / 0.5) :=
  earlyscore_formula_c9.1 0 100 10000 20 100 (by norm_num) (by norm_num)
    (by norm_num) (by norm_num)

end Early

namespace WalletDiscovery

/-- The Trade row built by WalletDiscovery._fetch_token_buyers, with
tx_hash as the primary key of the trades table. -/
structure DBTrade where
  tx_hash : String
  ts : ℚ
  chain_id : String
  wallet_address : String
  token_address : String
  side : String
  qty_token : ℚ
  price_usd : ℚ
  usd_value : ℚ
  venue : Option String
deriving Repr, DecidableEq

/-- The duplicate-checked insert of _fetch_token_buyers: query the
trade store by tx_hash first and append the row only when no trade
with that hash exists; an existing row is left untouched. -/
def insertTrade (store : List DBTrade) (t : DBTrade) : List DBTrade :=
  if t.tx_hash ∈ store.map DBTrade.tx_hash then store else store ++ [t]

/-- Inserting the same trade twice equals inserting it once. -/
theorem insertTrade_twice (store : List DBTrade) (t : DBTrade) :
    insertTrade (insertTrade store t) t = insertTrade store t := by
  by_cases h : t.tx_hash ∈ store.map DBTrade.tx_hash
  · have h1 : insertTrade store t = store := by rw [insertTrade, if_pos h]
    rw [h1]
    exact h1
  · have h1 : insertTrade store t = store ++ [t] := by rw [insertTrade, if_neg h]
    rw [h1, insertTrade, if_pos]
    simp

/-- C8: reinserting an existing tx_hash is a no-op, and inserting the
same trade N times for any N of at least one yields the same trade
store as inserting it once — no second row is created and the stored
row is never altered. -/
theorem trade_insert_idempotent_c8 (store : List DBTrade) (t : DBTrade) (n : ℕ)
    (hn : 1 ≤ n) :
    (t.tx_hash ∈ store.map DBTrade.tx_hash → insertTrade store t = store) ∧
    (fun s => insertTrade s t)^[n] store = insertTrade store t := by
  constructor
  · intro h
    rw [insertTrade, if_pos h]
  · obtain ⟨m, rfl⟩ : ∃ m, n = m + 1 := ⟨n - 1, by omega⟩
    rw [Function.iterate_succ_apply]
    show (fun s => insertTrade s t)^[m] (insertTrade store t) = insertTrade store t
    exact @Function.iterate_fixed _ (fun s => insertTrade s t) (insertTrade store t)
      (insertTrade_twice store t) m

/-- Witness for C8: inserting one concrete trade three times into the
empty store equals inserting it once. -/
theorem trade_insert_idempotent_c8_witness :
    ((⟨"0xabc", 0, "ethereum", "W", "T", "buy", 1, 1, 1, none⟩ : DBTrade).tx_hash ∈
        ([] : List DBTrade).map DBTrade.tx_hash →
      insertTrade [] ⟨"0xabc", 0, "ethereum", "W", "T", "buy", 1, 1, 1, none⟩ = []) ∧
    (fun s => insertTrade s ⟨"0xabc", 0, "ethereum", "W", "T", "buy", 1, 1, 1, none⟩)^[3]
        [] =
      insertTrade [] ⟨"0xabc", 0, "ethereum", "W", "T", "buy", 1, 1, 1, none⟩ :=
  trade_insert_idempotent_c8 [] ⟨"0xabc", 0, "ethereum", "W", "T", "buy", 1, 1, 1, none⟩
    3 (by norm_num)

end WalletDiscovery
